import Mathlib

/-!
Verification of the TechMCP scraping core: a shallow embedding of the
course/attendance/marks/timetable scrapers and the tool-layer lookups,
with theorems settling the specification claims.

Modelling conventions:
* Python `str` values are Lean `String`s; character-level operations
  (strip, lower, substring search, numeric parsing) are carried out on
  `String.data : List Char` so that everything is executable.
* Python numbers: `int` is `ℤ`; `float` is modelled exactly as `ℚ`
  (every numeric literal and arithmetic step of the source is exactly
  representable, so the rational model agrees with the float code on
  the inputs the claims quantify over).
* `datetime` instants are minutes (`ℤ`); `datetime.time` values are the
  `HM` hour/minute structure, compared by total minutes exactly as
  Python compares `time` objects.
* Python `dict` (insertion ordered) is an association list updated in
  place, appended on a fresh key.
* HTML pages are given as the shapes the parsers inspect: an optional
  table holding an optional tbody holding rows of cell texts.
* A raised exception is an `Except.error`; a scraper's mutable fields
  are explicit state records threaded through the functions.
-/

/-- A wall-clock time of day, `datetime.time(hour, minute)`. -/
structure HM where
  hour : Nat
  minute : Nat
deriving DecidableEq

/-- Total minutes since midnight; Python compares `time` values this way. -/
def HM.toMin (t : HM) : Nat := 60 * t.hour + t.minute

/-- `a <= b` on times, as Python compares `datetime.time`. -/
def hmLe (a b : HM) : Bool := decide (a.toMin ≤ b.toMin)

/-- `a < b` on times, as Python compares `datetime.time`. -/
def hmLt (a b : HM) : Bool := decide (a.toMin < b.toMin)

/-- Python `str.strip()`: drop leading and trailing whitespace. -/
def pyStrip (l : List Char) : List Char :=
  ((l.dropWhile (·.isWhitespace)).reverse.dropWhile (·.isWhitespace)).reverse

/-- `str.strip()` packaged on `String`. -/
def stripS (s : String) : String := ⟨pyStrip s.data⟩

/-- Value of a run of decimal digits. -/
def digitsToNat (l : List Char) : Nat := l.foldl (fun a c => 10 * a + (c.toNat - 48)) 0

/-- Python `int(text)`: optional sign followed by at least one digit,
`none` models the `ValueError` branch. -/
def parsePyInt (l : List Char) : Option Int :=
  match l with
  | '-' :: rest =>
    if rest ≠ [] ∧ rest.all (·.isDigit) then some (-(digitsToNat rest : Int)) else none
  | '+' :: rest =>
    if rest ≠ [] ∧ rest.all (·.isDigit) then some (digitsToNat rest) else none
  | _ => if l ≠ [] ∧ l.all (·.isDigit) then some (digitsToNat l) else none

/-- Python `float(text)` on an unsigned decimal literal (digits with an
optional fractional part); `none` models the `ValueError` branch. -/
def parsePyFloatCore (l : List Char) : Option ℚ :=
  let intPart := l.takeWhile (·.isDigit)
  let rest := l.dropWhile (·.isDigit)
  match rest with
  | [] => if intPart = [] then none else some (digitsToNat intPart : ℚ)
  | '.' :: frac =>
    if frac.all (·.isDigit) ∧ (intPart ≠ [] ∨ frac ≠ []) then
      some ((digitsToNat intPart : ℚ) + (digitsToNat frac : ℚ) / (10 ^ frac.length))
    else none
  | _ => none

/-- Python `float(text)` with an optional sign. -/
def parsePyFloat (l : List Char) : Option ℚ :=
  match l with
  | '-' :: rest => (parsePyFloatCore rest).map Neg.neg
  | '+' :: rest => parsePyFloatCore rest
  | _ => parsePyFloatCore l

/-- `safe_int` from the attendance scraper: strip, return 0 on the empty
string or the `*` placeholder, and 0 when `int()` raises `ValueError`. -/
def safe_int (text : String) : Int :=
  let t := pyStrip text.data
  if t ≠ [] ∧ t ≠ ['*'] then (parsePyInt t).getD 0 else 0

/-- `safe_float` from the attendance scraper: same shape as `safe_int`
with `float()` and default `0.0`. -/
def safe_float (text : String) : ℚ :=
  let t := pyStrip text.data
  if t ≠ [] ∧ t ≠ ['*'] then (parsePyFloat t).getD 0 else 0

/-- `parse_mark` from the marks scraper: strip, and map the empty
string, the `*` placeholder, or a `ValueError` to `None`. -/
def parse_mark (text : String) : Option ℚ :=
  let t := pyStrip text.data
  if t ≠ [] ∧ t ≠ ['*'] then parsePyFloat t else none

/-- Python `int()` applied to a rational: truncation toward zero. -/
def pyTrunc (q : ℚ) : Int := if 0 ≤ q then ⌊q⌋ else ⌈q⌉

/-- `AttendanceScraper._calculate_available_bunks`: zero when no hours or
below the required minimum, otherwise `int((present - required) / r)`
clamped to be nonnegative, where `r = min_attendance / 100`.  The
`absent_hours` parameter is accepted and never read, exactly as in the
source. -/
def calculate_available_bunks (total_hours present_hours : Int)
    (absent_hours : ℚ) (min_attendance : ℚ) : Int :=
  if total_hours = 0 then 0
  else
    let frac := min_attendance / 100
    let min_required_present := frac * (total_hours : ℚ)
    if (present_hours : ℚ) < min_required_present then 0
    else max 0 (pyTrunc (((present_hours : ℚ) - min_required_present) / frac))

/-- The `SubjectAttendance` record built by the attendance scraper. -/
structure SubjectAttendance where
  course_code : String
  total_hours : Int
  exempted_hours : Int
  absent_hours : Int
  present_hours : Int
  attendance_percentage : ℚ
  exemption_percentage : ℚ
  exemption_med_percentage : ℚ
  attendance_from : String
  attendance_to : String
  available_bunks : Int
deriving DecidableEq

/-- One iteration of the attendance row loop: rows with fewer than 10
cells are skipped, all other rows parse with safe coercion (no branch of
the `try` body can raise). -/
def parse_attendance_row (cols : List String) : Option SubjectAttendance :=
  if cols.length < 10 then none
  else some {
    course_code := stripS (cols.getD 0 ""),
    total_hours := safe_int (cols.getD 1 ""),
    exempted_hours := safe_int (cols.getD 2 ""),
    absent_hours := safe_int (cols.getD 3 ""),
    present_hours := safe_int (cols.getD 4 ""),
    attendance_percentage := safe_float (cols.getD 5 ""),
    exemption_percentage := safe_float (cols.getD 6 ""),
    exemption_med_percentage := safe_float (cols.getD 7 ""),
    attendance_from := stripS (cols.getD 8 ""),
    attendance_to := stripS (cols.getD 9 ""),
    available_bunks :=
      calculate_available_bunks (safe_int (cols.getD 1 ""))
        (safe_int (cols.getD 4 "")) ((safe_int (cols.getD 3 "")) : ℚ) 75 }

/-- The attendance row loop over a tbody. -/
def parse_attendance_rows (rows : List (List String)) : List SubjectAttendance :=
  rows.filterMap parse_attendance_row

/-- The attendance table element: `tbody` may be missing. -/
structure AttendanceTable where
  tbody : Option (List (List String))

/-- An attendance page: the table with id `example` may be missing. -/
structure AttendancePage where
  table : Option AttendanceTable

/-- `AttendanceScraper._parse_attendance_table`: missing table or tbody
yields the empty list, otherwise the row loop runs. -/
def parse_attendance_table (page : AttendancePage) : List SubjectAttendance :=
  match page.table with
  | none => []
  | some t =>
    match t.tbody with
    | none => []
    | some rows => parse_attendance_rows rows

/-- The `LabCourseMarks` record of the marks scraper. -/
structure LabCourseMarks where
  subject_code : String
  subject_name : String
  ca1_marks : Option ℚ
  ca2_marks : Option ℚ
  total_marks : Option ℚ
  conv_total : Option ℚ
deriving DecidableEq

/-- One iteration of `_parse_lab_table`'s row loop: rows with fewer than
6 cells are skipped, marks go through `parse_mark`. -/
def parse_lab_row (cols : List String) : Option LabCourseMarks :=
  if cols.length < 6 then none
  else some {
    subject_code := stripS (cols.getD 0 ""),
    subject_name := stripS (cols.getD 1 ""),
    ca1_marks := parse_mark (cols.getD 2 ""),
    ca2_marks := parse_mark (cols.getD 3 ""),
    total_marks := parse_mark (cols.getD 4 ""),
    conv_total := parse_mark (cols.getD 5 "") }

/-- The `TheoryCourseMarks` record of the marks scraper. -/
structure TheoryCourseMarks where
  subject_code : String
  subject_name : String
  t1_marks : Option ℚ
  t2_marks : Option ℚ
  rt_marks : Option ℚ
  rt1_marks : Option ℚ
  rt2_marks : Option ℚ
  test_total : Option ℚ
  ap_marks : Option ℚ
  mpt_marks : Option ℚ
  total_marks : Option ℚ
  conv_total : Option ℚ
deriving DecidableEq

/-- One iteration of `_parse_theory_table`'s row loop: rows with fewer
than 12 cells are skipped, marks go through `parse_mark`. -/
def parse_theory_row (cols : List String) : Option TheoryCourseMarks :=
  if cols.length < 12 then none
  else some {
    subject_code := stripS (cols.getD 0 ""),
    subject_name := stripS (cols.getD 1 ""),
    t1_marks := parse_mark (cols.getD 2 ""),
    t2_marks := parse_mark (cols.getD 3 ""),
    rt_marks := parse_mark (cols.getD 4 ""),
    rt1_marks := parse_mark (cols.getD 5 ""),
    rt2_marks := parse_mark (cols.getD 6 ""),
    test_total := parse_mark (cols.getD 7 ""),
    ap_marks := parse_mark (cols.getD 8 ""),
    mpt_marks := parse_mark (cols.getD 9 ""),
    total_marks := parse_mark (cols.getD 10 ""),
    conv_total := parse_mark (cols.getD 11 "") }

/-- Python's insertion-ordered `dict` assignment `d[k] = v` on an
association list: update the existing binding in place, else append. -/
def dictInsert : List (String × String) → String → String → List (String × String)
  | [], k, v => [(k, v)]
  | p :: rest, k, v =>
    if p.1 = k then (k, v) :: rest else p :: dictInsert rest k v

/-- Python `d.get(k)` on the association list. -/
def dictLookup : List (String × String) → String → Option String
  | [], _ => none
  | p :: rest, k => if p.1 = k then some p.2 else dictLookup rest k

/-- The card loop of `CourseCodeScraper._parse_course_page`: each card
contributes its first two stripped strings as `(code, name)`; cards with
fewer than two strings are ignored. -/
def parse_cards : List (String × String) → List (List String) → List (String × String)
  | d, [] => d
  | d, card :: rest =>
    match card with
    | code :: name :: _ => parse_cards (dictInsert d code name) rest
    | _ => parse_cards d rest

/-- `CourseCodeScraper._parse_course_page` over the list of card text
fragments: no cards yields the empty list, otherwise the dict is built
and listed in insertion order. -/
def parse_course_page (cards : List (List String)) : List (String × String) :=
  if cards.isEmpty then [] else parse_cards [] cards

/-- Specification-side description (for comparison): the last-seen name
for a code, scanning the cards in order and keeping the most recent
valid card that carries the code. -/
def last_seen_name (c : String) (cards : List (List String)) : Option String :=
  cards.foldl
    (fun acc card =>
      match card with
      | code :: name :: _ => if code = c then some name else acc
      | _ => acc)
    none

/-- Mutable cache fields of `CourseCodeScraper`: the parsed payload and
the fetch timestamp (minutes). -/
structure CourseCacheState where
  cache : Option (List (String × String))
  last_fetch : Option Int
deriving DecidableEq

/-- `CourseCodeScraper.is_cache_valid`: the Python truthiness chain
`self.cache and self.last_fetch and (now - last_fetch < 30 minutes)` —
an empty cached list is falsy, a timestamp is always truthy. -/
def cc_is_cache_valid (now : Int) (st : CourseCacheState) : Bool :=
  match st.cache, st.last_fetch with
  | some c, some t => !c.isEmpty && decide (now - t < 30)
  | _, _ => false

/-- `CourseCodeScraper.fetch_course_list`: serve the cache when valid,
otherwise fetch and parse (the parsed result is the `network` argument),
overwrite the cache with the new payload and timestamp, and return it.
The boolean records whether a network fetch was performed. -/
def fetch_course_list (now : Int) (network : List (String × String))
    (st : CourseCacheState) : List (String × String) × CourseCacheState × Bool :=
  if cc_is_cache_valid now st then (st.cache.getD [], st, false)
  else (network, ⟨some network, some now⟩, true)

/-- Time slot of each period, `TimeTableScraper.PERIOD_TIMES`. -/
def PERIOD_TIMES (p : Nat) : Option (HM × HM) :=
  match p with
  | 1 => some (⟨8, 30⟩, ⟨9, 20⟩)
  | 2 => some (⟨9, 20⟩, ⟨10, 10⟩)
  | 3 => some (⟨10, 30⟩, ⟨11, 20⟩)
  | 4 => some (⟨11, 20⟩, ⟨12, 10⟩)
  | 5 => some (⟨13, 40⟩, ⟨14, 30⟩)
  | 6 => some (⟨14, 30⟩, ⟨15, 20⟩)
  | 7 => some (⟨15, 30⟩, ⟨16, 20⟩)
  | 8 => some (⟨16, 20⟩, ⟨17, 10⟩)
  | _ => none

/-- `TimeTableScraper.BREAK_TIMES`. -/
def BREAK_TIMES : List (HM × HM) :=
  [(⟨10, 10⟩, ⟨10, 30⟩), (⟨12, 10⟩, ⟨13, 40⟩), (⟨15, 20⟩, ⟨15, 30⟩)]

/-- The `TimeTableEntry` record. -/
structure TimeTableEntry where
  day : String
  period : Nat
  start_time : HM
  end_time : HM
  course_code : String
  course_name : String
  faculty : String
  room : String
deriving DecidableEq

/-- One `<td>` of a timetable row: its stripped text, its colspan, and
the result of `_parse_timetable_cell` on its tooltip markup, given as
the `(course_code, course_name)` pair when the cell parses. -/
structure TimetableCell where
  text : String
  colspan : Nat
  cell_course : Option (String × String)

/-- The period-cell loop of `_parse_timetable_table` for one day row:
an empty or dash cell advances the period counter by its colspan; a cell
that parses emits one entry whose end time stretches over the colspan
when the final covered period exists in `PERIOD_TIMES`; every cell
advances the counter by its colspan. -/
def parse_row_cells (day : String) : Nat → List TimetableCell → List TimeTableEntry
  | _, [] => []
  | current_period, cell :: rest =>
    if cell.text = "-" ∨ cell.text = "" then
      parse_row_cells day (current_period + cell.colspan) rest
    else
      match cell.cell_course with
      | none => parse_row_cells day (current_period + cell.colspan) rest
      | some (code, name) =>
        let slot := (PERIOD_TIMES current_period).getD (⟨8, 0⟩, ⟨8, 50⟩)
        let stretched :=
          if 1 < cell.colspan ∧ (PERIOD_TIMES (current_period + cell.colspan - 1)).isSome
          then ((PERIOD_TIMES (current_period + cell.colspan - 1)).getD (⟨8, 0⟩, ⟨8, 50⟩)).2
          else slot.2
        { day := day, period := current_period, start_time := slot.1,
          end_time := stretched, course_code := code, course_name := name,
          faculty := "", room := "" }
          :: parse_row_cells day (current_period + cell.colspan) rest

/-- One `<tr>` of the timetable tbody: the day label in a `<th>` (absent
when the row has no header) and the period cells. -/
structure TimetableRow where
  header : Option String
  cells : List TimetableCell

/-- One iteration of the day-row loop: rows without a day header or
without period cells are skipped. -/
def parse_timetable_row (row : TimetableRow) : List TimeTableEntry :=
  match row.header with
  | none => []
  | some h => if row.cells.isEmpty then [] else parse_row_cells (stripS h) 1 row.cells

/-- The timetable table element: `tbody` may be missing. -/
structure TimetableTable where
  tbody : Option (List TimetableRow)

/-- A timetable page: the table may be missing. -/
structure TimetablePage where
  table : Option TimetableTable

/-- `TimeTableScraper._parse_timetable_table`: missing table or tbody
yields the empty list, otherwise entries accumulate row by row. -/
def parse_timetable_table (page : TimetablePage) : List TimeTableEntry :=
  match page.table with
  | none => []
  | some t =>
    match t.tbody with
    | none => []
    | some rows => rows.foldr (fun r acc => parse_timetable_row r ++ acc) []

/-- Mutable cache fields of `TimeTableScraper`. -/
structure TimetableCacheState where
  cache : Option (List TimeTableEntry)
  last_fetch : Option Int
deriving DecidableEq

/-- `TimeTableScraper.is_cache_valid`: false when the cached list is
missing or empty (`not self.timetable_cache`) or no fetch happened,
otherwise the 30-minute window test. -/
def tt_is_cache_valid (now : Int) (st : TimetableCacheState) : Bool :=
  match st.cache, st.last_fetch with
  | some c, some t => !c.isEmpty && decide (now - t < 30)
  | _, _ => false

/-- `TimeTableScraper.get_timetable_data`: serve the cache when valid,
otherwise fetch and parse (the parsed result is the `network` argument),
overwrite the cache, and return the fresh entries.  The boolean records
whether a network fetch was performed. -/
def get_timetable_data (now : Int) (network : List TimeTableEntry)
    (st : TimetableCacheState) : List TimeTableEntry × TimetableCacheState × Bool :=
  if tt_is_cache_valid now st then (st.cache.getD [], st, false)
  else (network, ⟨some network, some now⟩, true)

/-- The weekday names used by `get_day_from_date`, indexed by Python's
`date.weekday()` (0 = Monday). -/
def DAYS_LIST : List String :=
  ["Monday", "Tuesday", "Wednesday", "Thursday", "Friday", "Saturday", "Sunday"]

/-- `get_day_from_date` on a weekday index. -/
def dayName (w : Nat) : String := DAYS_LIST.getD w ""

/-- Case-insensitive string comparison, `a.lower() == b.lower()`. -/
def lowerEq (a b : String) : Bool :=
  a.data.map Char.toLower == b.data.map Char.toLower

/-- `find_timetable_entries(timetable, day=day)`: filter by day,
case-insensitively. -/
def find_entries_by_day (tt : List TimeTableEntry) (day : String) : List TimeTableEntry :=
  tt.filter (fun e => lowerEq e.day day)

/-- `is_break_time(current_time, BREAK_TIMES)`: the first break window
containing the instant, if any. -/
def find_break (t : HM) : Option (HM × HM) :=
  BREAK_TIMES.find? (fun b => hmLe b.1 t && hmLe t b.2)

/-- Comparison key of `sorted(today_classes, key=lambda x: x.start_time)`. -/
def startLe (a b : TimeTableEntry) : Bool := hmLe a.start_time b.start_time

/-- `sorted(entries, key=lambda x: x.start_time)` (a stable merge sort,
as Python's `sorted`). -/
def sortByStart (l : List TimeTableEntry) : List TimeTableEntry :=
  l.mergeSort startLe

/-- One comparison step of Python `min` under the `start_time` key:
keep the earlier-seen entry on ties. -/
def minStep (acc x : TimeTableEntry) : TimeTableEntry :=
  if hmLt x.start_time acc.start_time then x else acc

/-- Python `min(entries, key=lambda x: x.start_time)` wrapped in the
emptiness checks of `get_next_class`: the first entry attaining the
minimal start time, `none` on an empty list. -/
def minByStart : List TimeTableEntry → Option TimeTableEntry
  | [] => none
  | e :: rest => some (rest.foldl minStep e)

/-- The per-entry test of the today-loop in `get_next_class`: when the
instant is inside a break the class must start at or after the break's
end, otherwise strictly after the instant. -/
def nextTimeOk (now : HM) (e : TimeTableEntry) : Bool :=
  match find_break now with
  | some b => hmLe b.2 e.start_time
  | none => hmLt now e.start_time

/-- The `get_next_class` tool: today's first qualifying class in
start-time order, else tomorrow's earliest class, else the earliest
Monday class, else nothing. -/
def get_next_class (tt : List TimeTableEntry) (weekday : Nat) (now : HM) :
    Option TimeTableEntry :=
  let today_classes := find_entries_by_day tt (dayName weekday)
  match (sortByStart today_classes).find? (nextTimeOk now) with
  | some e => some e
  | none =>
    match minByStart (find_entries_by_day tt (dayName ((weekday + 1) % 7))) with
    | some e => some e
    | none => minByStart (find_entries_by_day tt "Monday")

/-- Substring containment on character lists, `pat in s`. -/
def hasSub (s pat : List Char) : Bool :=
  (List.range (s.length + 1)).any (fun i => pat.isPrefixOf (s.drop i))

/-- Python `str.lower()` on a character list. -/
def toLowerL (l : List Char) : List Char := l.map Char.toLower

/-- The success indicator phrases of `login()`. -/
def success_indicators : List String :=
  ["main menu", "profile", "logout", "welcome",
   "continuous assessment", "ca marks", "breadcrumb"]

/-- The failure indicator phrases of `login()`. -/
def failure_indicators : List String :=
  ["student login", "rollno", "password", "forgot password",
   "invalid", "incorrect", "error", "login failed",
   "terms & conditions", "staff", "parent"]

/-- `sum(1 for indicator in indicators if indicator in response_text)`. -/
def count_hits (response_text : List Char) (indicators : List String) : Nat :=
  (indicators.filter (fun i => hasSub response_text i.data)).length

/-- The classification tail of `login()` (attendance and timetable
scrapers are identical here): given the landing URL and response body of
the login POST, either succeed — retaining the client cookies as the
session — or raise `"Login failed. Check your credentials."`; on the
error path no cookie assignment happens. -/
def login_outcome (url body : String) (client_cookies : Nat) : Except String Nat :=
  let current_url := url.data
  let response_text := toLowerL body.data
  if hasSub current_url "/studzone/Home/Menu".data then
    Except.ok client_cookies
  else
    let success_count := count_hits response_text success_indicators
    let failure_count := count_hits response_text failure_indicators
    if (hasSub current_url "/studzone".data && !hasSub current_url "/Home/Menu".data)
        || decide (success_count < failure_count) then
      Except.error "Login failed. Check your credentials."
    else if decide (failure_count < success_count) then
      Except.ok client_cookies
    else
      Except.error "Login failed. Check your credentials."

/-- `get_subject_available_bunks`: the tool passes its `min_attendance`
argument as the third positional argument of
`_calculate_available_bunks`, which is `absent_hours`; the scraper's own
`min_attendance` keeps its default of 75. -/
def tool_subject_available_bunks (total_hours present_hours : Int)
    (min_attendance : ℚ) : Int :=
  calculate_available_bunks total_hours present_hours min_attendance 75

/-- `get_all_available_bunks`: per subject, the same call shape as
`get_subject_available_bunks`. -/
def tool_all_available_bunks (total_hours present_hours : Int)
    (min_attendance : ℚ) : Int :=
  calculate_available_bunks total_hours present_hours min_attendance 75

/-- The today-stage test of the next-class claim: the entry lies on the
current weekday and its start time qualifies against the current
instant (after the break when mid-break, strictly later otherwise). -/
def qualifies_today (w : Nat) (now : HM) (e : TimeTableEntry) : Bool :=
  lowerEq e.day (dayName w) && nextTimeOk now e

lemma hmLe_refl (a : HM) : hmLe a a = true := by
  simp [hmLe]

lemma hmLe_trans {a b c : HM} (h1 : hmLe a b = true) (h2 : hmLe b c = true) :
    hmLe a c = true := by
  simp only [hmLe, decide_eq_true_eq] at *
  omega

lemma startLe_trans (a b c : TimeTableEntry) (h1 : startLe a b = true)
    (h2 : startLe b c = true) : startLe a c = true :=
  hmLe_trans h1 h2

lemma startLe_total (a b : TimeTableEntry) : (startLe a b || startLe b a) = true := by
  simp only [startLe, hmLe, Bool.or_eq_true, decide_eq_true_eq]
  omega

/-- Claim C1: with `total_hours > 0` and the default ratio `r = 0.75`,
`_calculate_available_bunks` returns 0 when
`present_hours < r * total_hours` and otherwise
`floor((present_hours - r * total_hours) / r)`; the result is always
nonnegative, and total=40, present=32 yields 2. -/
theorem attendance_available_bunks_formula (total present : Int) (absent : ℚ)
    (htot : 0 < total) :
    ((present : ℚ) < 3 / 4 * total →
      calculate_available_bunks total present absent 75 = 0)
    ∧ (3 / 4 * (total : ℚ) ≤ present →
      calculate_available_bunks total present absent 75 =
        ⌊((present : ℚ) - 3 / 4 * total) / (3 / 4)⌋)
    ∧ 0 ≤ calculate_available_bunks total present absent 75
    ∧ calculate_available_bunks 40 32 absent 75 = 2 := by
  have hne : total ≠ 0 := by omega
  have hfrac : (75 : ℚ) / 100 = 3 / 4 := by norm_num
  refine ⟨?_, ?_, ?_, ?_⟩
  · intro hlt
    simp only [calculate_available_bunks, hfrac, if_neg hne, if_pos hlt]
  · intro hge
    have hnlt : ¬ ((present : ℚ) < 3 / 4 * total) := not_lt.mpr hge
    have hq : (0 : ℚ) ≤ ((present : ℚ) - 3 / 4 * total) / (3 / 4) :=
      div_nonneg (by linarith) (by norm_num)
    simp only [calculate_available_bunks, hfrac, if_neg hne, if_neg hnlt, pyTrunc,
      if_pos hq]
    exact max_eq_right (Int.floor_nonneg.mpr hq)
  · by_cases h : (present : ℚ) < 3 / 4 * total
    · simp [calculate_available_bunks, hfrac, if_neg hne, if_pos h]
    · simp only [calculate_available_bunks, hfrac, if_neg hne, if_neg h]
      exact le_max_left 0 _
  · norm_num [calculate_available_bunks, pyTrunc]

/-- Witness for C1 at concrete inputs: total=40, present=32 gives 2 and
total=40, present=29 (below the 30-hour minimum) gives 0. -/
theorem attendance_available_bunks_formula_witness :
    calculate_available_bunks 40 32 8 75 = 2
    ∧ calculate_available_bunks 40 29 8 75 = 0 :=
  ⟨(attendance_available_bunks_formula 40 32 8 (by norm_num)).2.2.2,
   (attendance_available_bunks_formula 40 29 8 (by norm_num)).1 (by norm_num)⟩

/-- Claim C9: the tool layer passes `min_attendance` into the unused
`absent_hours` slot of `_calculate_available_bunks`, so for any caller
threshold the result equals the default-75% computation; concretely,
a 50% threshold request on total=40, present=24 yields 0 (the 75%
answer), not the 8 a genuine 50% computation would give. -/
theorem tool_min_attendance_ignored :
    (∀ (total present : Int) (m : ℚ),
      tool_subject_available_bunks total present m =
        calculate_available_bunks total present 0 75
      ∧ tool_all_available_bunks total present m =
        calculate_available_bunks total present 0 75)
    ∧ tool_subject_available_bunks 40 24 50 = 0
    ∧ calculate_available_bunks 40 24 0 50 = 8 := by
  refine ⟨fun total present m => ⟨rfl, rfl⟩, ?_, ?_⟩
  · norm_num [tool_subject_available_bunks, calculate_available_bunks]
  · norm_num [calculate_available_bunks, pyTrunc]

/-- Claim C7: every parser whose expected container is absent returns the
empty collection instead of raising — attendance table or tbody
missing, no course cards, timetable table or tbody missing. -/
theorem missing_structure_yields_empty :
    parse_attendance_table ⟨none⟩ = []
    ∧ parse_attendance_table ⟨some ⟨none⟩⟩ = []
    ∧ parse_course_page [] = []
    ∧ parse_timetable_table ⟨none⟩ = []
    ∧ parse_timetable_table ⟨some ⟨none⟩⟩ = [] :=
  ⟨rfl, rfl, rfl, rfl, rfl⟩

/-- Claim C8: malformed numeric text (`"N/A"`) and the `"*"` placeholder
coerce to 0 in the attendance scraper and to the absent value in the
marks scraper, and rows with the full column count are always included:
every 10-cell attendance row, 6-cell lab row and 12-cell theory row
parses to a record whose numeric fields are the safe coercions of the
corresponding cells. -/
theorem malformed_numeric_coercion :
    safe_int "N/A" = 0
    ∧ safe_int "*" = 0
    ∧ safe_float "N/A" = 0
    ∧ parse_mark "N/A" = none
    ∧ parse_mark "*" = none
    ∧ (∀ cols : List String, cols.length = 10 →
        ∃ r, parse_attendance_row cols = some r
          ∧ r.total_hours = safe_int (cols.getD 1 "")
          ∧ r.present_hours = safe_int (cols.getD 4 ""))
    ∧ (∀ cols : List String, cols.length = 6 →
        ∃ m, parse_lab_row cols = some m ∧ m.ca1_marks = parse_mark (cols.getD 2 ""))
    ∧ (∀ cols : List String, cols.length = 12 →
        ∃ m, parse_theory_row cols = some m ∧ m.t1_marks = parse_mark (cols.getD 2 "")) := by
  refine ⟨by decide, by decide, by decide, by decide, by decide, ?_, ?_, ?_⟩
  · intro cols h
    rw [parse_attendance_row, if_neg (by omega)]
    exact ⟨_, rfl, rfl, rfl⟩
  · intro cols h
    rw [parse_lab_row, if_neg (by omega)]
    exact ⟨_, rfl, rfl⟩
  · intro cols h
    rw [parse_theory_row, if_neg (by omega)]
    exact ⟨_, rfl, rfl⟩

/-- Witness for C8: a concrete 10-cell attendance row with `"N/A"` and
`"*"` cells is included with those cells coerced, and a concrete 6-cell
lab row with a `"*"` mark is included with the mark absent. -/
theorem malformed_numeric_coercion_witness :
    (∃ r, parse_attendance_row
        ["19CS401", "N/A", "0", "*", "32", "80.0", "0", "0", "JUN", "NOV"] = some r
      ∧ r.total_hours =
          safe_int (["19CS401", "N/A", "0", "*", "32", "80.0", "0", "0", "JUN", "NOV"].getD 1 "")
      ∧ r.present_hours =
          safe_int (["19CS401", "N/A", "0", "*", "32", "80.0", "0", "0", "JUN", "NOV"].getD 4 ""))
    ∧ (∃ m, parse_lab_row ["19CS411", "OS LAB", "*", "44", "89", "44.5"] = some m
      ∧ m.ca1_marks = parse_mark (["19CS411", "OS LAB", "*", "44", "89", "44.5"].getD 2 "")) :=
  ⟨malformed_numeric_coercion.2.2.2.2.2.1
      ["19CS401", "N/A", "0", "*", "32", "80.0", "0", "0", "JUN", "NOV"] rfl,
   malformed_numeric_coercion.2.2.2.2.2.2.1
      ["19CS411", "OS LAB", "*", "44", "89", "44.5"] rfl⟩

lemma dictLookup_dictInsert (d : List (String × String)) (k v c : String) :
    dictLookup (dictInsert d k v) c = if k = c then some v else dictLookup d c := by
  induction d with
  | nil => simp only [dictInsert, dictLookup]
  | cons p rest ih =>
    simp only [dictInsert]
    by_cases hpk : p.1 = k
    · rw [if_pos hpk]
      simp only [dictLookup]
      by_cases hkc : k = c
      · simp [hkc]
      · rw [if_neg hkc, if_neg hkc, if_neg (hpk ▸ hkc)]
    · rw [if_neg hpk]
      simp only [dictLookup]
      by_cases hpc : p.1 = c
      · have hkc : k ≠ c := fun h => hpk (by rw [hpc, h])
        simp [hpc, hkc]
      · simp [hpc, ih]

lemma mem_keys_dictInsert {d : List (String × String)} {k v x : String}
    (h : x ∈ (dictInsert d k v).map Prod.fst) :
    x ∈ d.map Prod.fst ∨ x = k := by
  induction d with
  | nil => simpa [dictInsert] using h
  | cons p rest ih =>
    simp only [dictInsert] at h
    by_cases hpk : p.1 = k
    · rw [if_pos hpk] at h
      simp only [List.map_cons, List.mem_cons] at h
      rcases h with h | h
      · right; exact h
      · left; simp [h]
    · rw [if_neg hpk] at h
      simp only [List.map_cons, List.mem_cons] at h ⊢
      rcases h with h | h
      · left; left; exact h
      · rcases ih h with h1 | h1
        · left; right; exact h1
        · right; exact h1

lemma nodup_keys_dictInsert {d : List (String × String)}
    (h : (d.map Prod.fst).Nodup) (k v : String) :
    ((dictInsert d k v).map Prod.fst).Nodup := by
  induction d with
  | nil => simp [dictInsert]
  | cons p rest ih =>
    simp only [List.map_cons, List.nodup_cons] at h
    obtain ⟨hp, hrest⟩ := h
    simp only [dictInsert]
    by_cases hpk : p.1 = k
    · rw [if_pos hpk]
      simp only [List.map_cons, List.nodup_cons]
      exact ⟨hpk ▸ hp, hrest⟩
    · rw [if_neg hpk]
      simp only [List.map_cons, List.nodup_cons]
      refine ⟨fun hmem => ?_, ih hrest⟩
      rcases mem_keys_dictInsert hmem with h1 | h1
      · exact hp h1
      · exact hpk (by rw [h1])

lemma nodup_keys_parse_cards :
    ∀ (cards : List (List String)) (d : List (String × String)),
      (d.map Prod.fst).Nodup → ((parse_cards d cards).map Prod.fst).Nodup := by
  intro cards
  induction cards with
  | nil => intro d h; exact h
  | cons card rest ih =>
    intro d h
    cases card with
    | nil => exact ih d h
    | cons code t =>
      cases t with
      | nil => exact ih d h
      | cons name tail => exact ih _ (nodup_keys_dictInsert h code name)

lemma dictLookup_parse_cards :
    ∀ (cards : List (List String)) (d : List (String × String)) (c : String),
      dictLookup (parse_cards d cards) c =
        cards.foldl
          (fun acc card =>
            match card with
            | code :: name :: _ => if code = c then some name else acc
            | _ => acc)
          (dictLookup d c) := by
  intro cards
  induction cards with
  | nil => intro d c; rfl
  | cons card rest ih =>
    intro d c
    cases card with
    | nil => exact ih d c
    | cons code t =>
      cases t with
      | nil => exact ih d c
      | cons name tail =>
        show dictLookup (parse_cards (dictInsert d code name) rest) c = _
        rw [ih, dictLookup_dictInsert]
        rfl

lemma mem_iff_dictLookup {d : List (String × String)}
    (h : (d.map Prod.fst).Nodup) (c n : String) :
    (c, n) ∈ d ↔ dictLookup d c = some n := by
  induction d with
  | nil => simp [dictLookup]
  | cons p rest ih =>
    simp only [List.map_cons, List.nodup_cons] at h
    obtain ⟨hp, hrest⟩ := h
    simp only [List.mem_cons, dictLookup]
    by_cases hpc : p.1 = c
    · rw [if_pos hpc]
      constructor
      · rintro (h1 | h1)
        · rw [← h1] at hpc ⊢
        · exact absurd (hpc ▸ List.mem_map_of_mem Prod.fst h1) hp
      · intro h1
        left
        obtain ⟨p1, p2⟩ := p
        simp only at hpc
        simp only [Option.some.injEq] at h1
        rw [hpc, h1]
    · rw [if_neg hpc]
      constructor
      · rintro (h1 | h1)
        · exact absurd (by rw [← h1]) hpc
        · exact (ih hrest).mp h1
      · intro h1
        right
        exact (ih hrest).mpr h1

/-- Claim C2: `_parse_course_page` produces exactly one entry per distinct
course code, and the entry for a code carries the last-seen name for
that code in card order; in particular two cards coded `CS101` named
`Data Structures` then `DS` yield the single mapping `CS101 -> DS`. -/
theorem course_dedup_last_wins :
    (∀ cards : List (List String),
      ((parse_course_page cards).map Prod.fst).Nodup
      ∧ ∀ c n : String,
          ((c, n) ∈ parse_course_page cards ↔ last_seen_name c cards = some n))
    ∧ parse_course_page [["CS101", "Data Structures"], ["CS101", "DS"]]
        = [("CS101", "DS")] := by
  constructor
  · intro cards
    by_cases hc : cards.isEmpty = true
    · have hnil : cards = [] := List.isEmpty_iff.mp hc
      subst hnil
      simp [parse_course_page, last_seen_name]
    · have hnodup : ((parse_cards [] cards).map Prod.fst).Nodup :=
        nodup_keys_parse_cards cards [] (by simp)
      constructor
      · rw [parse_course_page, if_neg hc]
        exact hnodup
      · intro c n
        rw [parse_course_page, if_neg hc, mem_iff_dictLookup hnodup,
          dictLookup_parse_cards]
        rfl
  · rfl

/-- Counterexample to C3 as stated: with a previously stored cache
payload that is the empty list (stored at minute 0), a fetch at minute
29 — strictly inside the 30-minute window — does NOT return the cached
payload without a network fetch: validity tests the payload's
truthiness, so the fetch hits the network (flag `true`), returns the
fresh payload and overwrites the cache. -/
theorem cache_window_claim_counterexample :
    fetch_course_list 29 [("X", "Y")] ⟨some [], some 0⟩
      = ([("X", "Y")], ⟨some [("X", "Y")], some 29⟩, true) := rfl

/-- Claim C3, amended: for a previously stored NON-EMPTY cache payload, a fetch
strictly less than 30 minutes after the prior fetch returns the cached
payload unchanged with no network fetch, and a fetch at 30 minutes or
more performs a fresh network fetch, overwrites the cache with the new
payload and timestamp, and returns the new payload — for both the
course-list and the timetable scrapers. -/
theorem cache_window_nonempty (p network : List (String × String))
    (pt nt : List TimeTableEntry) (t0 now : Int) :
    (p ≠ [] → now - t0 < 30 →
      fetch_course_list now network ⟨some p, some t0⟩ = (p, ⟨some p, some t0⟩, false))
    ∧ (30 ≤ now - t0 →
      fetch_course_list now network ⟨some p, some t0⟩
        = (network, ⟨some network, some now⟩, true))
    ∧ (pt ≠ [] → now - t0 < 30 →
      get_timetable_data now nt ⟨some pt, some t0⟩ = (pt, ⟨some pt, some t0⟩, false))
    ∧ (30 ≤ now - t0 →
      get_timetable_data now nt ⟨some pt, some t0⟩
        = (nt, ⟨some nt, some now⟩, true)) := by
  refine ⟨fun hp hw => ?_, fun hw => ?_, fun hp hw => ?_, fun hw => ?_⟩
  · have hv : cc_is_cache_valid now ⟨some p, some t0⟩ = true := by
      simp [cc_is_cache_valid, List.isEmpty_iff, hp, hw]
    simp [fetch_course_list, hv]
  · have hv : cc_is_cache_valid now ⟨some p, some t0⟩ = false := by
      simp [cc_is_cache_valid]
      omega
    simp [fetch_course_list, hv]
  · have hv : tt_is_cache_valid now ⟨some pt, some t0⟩ = true := by
      simp [tt_is_cache_valid, List.isEmpty_iff, hp, hw]
    simp [get_timetable_data, hv]
  · have hv : tt_is_cache_valid now ⟨some pt, some t0⟩ = false := by
      simp [tt_is_cache_valid]
      omega
    simp [get_timetable_data, hv]

/-- Witness for the amended C3: a non-empty payload stored at minute 0
is served unchanged at minute 29 and refreshed at minute 31. -/
theorem cache_window_nonempty_witness :
    fetch_course_list 29 [("C", "N2")] ⟨some [("C", "N1")], some 0⟩
        = ([("C", "N1")], ⟨some [("C", "N1")], some 0⟩, false)
    ∧ fetch_course_list 31 [("C", "N2")] ⟨some [("C", "N1")], some 0⟩
        = ([("C", "N2")], ⟨some [("C", "N2")], some 31⟩, true) :=
  ⟨(cache_window_nonempty [("C", "N1")] [("C", "N2")] [] [] 0 29).1
      (by simp) (by norm_num),
   (cache_window_nonempty [("C", "N1")] [("C", "N2")] [] [] 0 31).2.1 (by norm_num)⟩


lemma cc_valid_inv {now : Int} {st : CourseCacheState}
    (h : cc_is_cache_valid now st = true) :
    ∃ c t, st.cache = some c ∧ st.last_fetch = some t ∧ c ≠ [] ∧ now - t < 30 := by
  obtain ⟨cache, lf⟩ := st
  cases cache with
  | none => simp [cc_is_cache_valid] at h
  | some c =>
    cases lf with
    | none => simp [cc_is_cache_valid] at h
    | some t =>
      simp only [cc_is_cache_valid, Bool.and_eq_true, Bool.not_eq_true',
        decide_eq_true_eq] at h
      refine ⟨c, t, rfl, rfl, fun hc => ?_, h.2⟩
      rw [hc] at h
      simp at h

lemma tt_valid_inv {now : Int} {st : TimetableCacheState}
    (h : tt_is_cache_valid now st = true) :
    ∃ c t, st.cache = some c ∧ st.last_fetch = some t ∧ c ≠ [] ∧ now - t < 30 := by
  obtain ⟨cache, lf⟩ := st
  cases cache with
  | none => simp [tt_is_cache_valid] at h
  | some c =>
    cases lf with
    | none => simp [tt_is_cache_valid] at h
    | some t =>
      simp only [tt_is_cache_valid, Bool.and_eq_true, Bool.not_eq_true',
        decide_eq_true_eq] at h
      refine ⟨c, t, rfl, rfl, fun hc => ?_, h.2⟩
      rw [hc] at h
      simp at h

/-- Claim C10: a payload served from cache is never empty — whenever a fetch
returns without a network hit the payload is non-empty — and once the
stored payload is the empty list every fetch, at any instant, performs
a fresh network fetch; for both cached scrapers. -/
theorem cache_never_serves_empty (now : Int)
    (net : List (String × String)) (st : CourseCacheState)
    (ntt : List TimeTableEntry) (stt : TimetableCacheState) :
    (∀ payload st2, fetch_course_list now net st = (payload, st2, false) →
      payload ≠ [])
    ∧ (st.cache = some [] → (fetch_course_list now net st).2.2 = true)
    ∧ (∀ payload st2, get_timetable_data now ntt stt = (payload, st2, false) →
      payload ≠ [])
    ∧ (stt.cache = some [] → (get_timetable_data now ntt stt).2.2 = true) := by
  refine ⟨?_, ?_, ?_, ?_⟩
  · intro payload st2 h
    by_cases hv : cc_is_cache_valid now st = true
    · obtain ⟨c, t, hc, ht, hne, hw⟩ := cc_valid_inv hv
      rw [fetch_course_list, if_pos hv] at h
      have hp : st.cache.getD [] = payload := congrArg Prod.fst h
      rw [hc] at hp
      simp only [Option.getD_some] at hp
      rw [← hp]
      exact hne
    · rw [fetch_course_list, if_neg hv] at h
      have hcontra : (true : Bool) = false := congrArg (fun x => x.2.2) h
      exact absurd hcontra (by simp)
  · intro hc
    have hv : ¬ cc_is_cache_valid now st = true := by
      obtain ⟨cache, lf⟩ := st
      simp only at hc
      subst hc
      cases lf <;> simp [cc_is_cache_valid]
    rw [fetch_course_list, if_neg hv]
  · intro payload st2 h
    by_cases hv : tt_is_cache_valid now stt = true
    · obtain ⟨c, t, hc, ht, hne, hw⟩ := tt_valid_inv hv
      rw [get_timetable_data, if_pos hv] at h
      have hp : stt.cache.getD [] = payload := congrArg Prod.fst h
      rw [hc] at hp
      simp only [Option.getD_some] at hp
      rw [← hp]
      exact hne
    · rw [get_timetable_data, if_neg hv] at h
      have hcontra : (true : Bool) = false := congrArg (fun x => x.2.2) h
      exact absurd hcontra (by simp)
  · intro hc
    have hv : ¬ tt_is_cache_valid now stt = true := by
      obtain ⟨cache, lf⟩ := stt
      simp only at hc
      subst hc
      cases lf <;> simp [tt_is_cache_valid]
    rw [get_timetable_data, if_neg hv]

/-- Witness for C10: a fetch served from a non-empty cache has a
non-empty payload, and with an empty list stored at minute 0 a fetch at
minute 10 (inside the window) still hits the network — both scrapers. -/
theorem cache_never_serves_empty_witness :
    ([("A", "B")] : List (String × String)) ≠ []
    ∧ (fetch_course_list 10 [] ⟨some [], some 0⟩).2.2 = true
    ∧ (get_timetable_data 10 [] ⟨some [], some 0⟩).2.2 = true :=
  ⟨(cache_never_serves_empty 10 [] ⟨some [("A", "B")], some 0⟩ [] ⟨some [], some 0⟩).1
      [("A", "B")] ⟨some [("A", "B")], some 0⟩ rfl,
   (cache_never_serves_empty 10 [] ⟨some [], some 0⟩ [] ⟨some [], some 0⟩).2.1 rfl,
   (cache_never_serves_empty 10 [] ⟨some [], some 0⟩ [] ⟨some [], some 0⟩).2.2.2 rfl⟩

/-- Claim C5: a non-empty course cell with colspan 2 met at period counter 3
emits exactly one entry with period 3, start time 10:30 (period 3's
start) and end time 12:10 (period 4's end), and the counter for the
next cell advances to 5; an empty or dash cell advances the counter by
its colspan without emitting an entry. -/
theorem timetable_colspan_periods (day : String) (rest : List TimetableCell)
    (cell : TimetableCell) (cp : Nat) (code name : String) :
    (cell.text ≠ "-" → cell.text ≠ "" → cell.cell_course = some (code, name) →
      cell.colspan = 2 →
      parse_row_cells day 3 (cell :: rest) =
        { day := day, period := 3, start_time := ⟨10, 30⟩, end_time := ⟨12, 10⟩,
          course_code := code, course_name := name, faculty := "", room := "" }
          :: parse_row_cells day 5 rest)
    ∧ ((cell.text = "-" ∨ cell.text = "") →
      parse_row_cells day cp (cell :: rest) =
        parse_row_cells day (cp + cell.colspan) rest) := by
  constructor
  · intro h1 h2 h3 h4
    simp only [parse_row_cells, if_neg (not_or.mpr ⟨h1, h2⟩), h3, h4, PERIOD_TIMES]
    norm_num
  · intro h
    simp only [parse_row_cells, if_pos h]

/-- Witness for C5: a concrete lab cell with colspan 2 at counter 3
emits the 10:30–12:10 entry and continues at counter 5; a dash cell
advances without emitting. -/
theorem timetable_colspan_periods_witness :
    parse_row_cells "Monday" 3
        [⟨"G1 19CS411", 2, some ("19CS411", "OS LAB")⟩] =
      [{ day := "Monday", period := 3, start_time := ⟨10, 30⟩,
         end_time := ⟨12, 10⟩, course_code := "19CS411",
         course_name := "OS LAB", faculty := "", room := "" }]
    ∧ parse_row_cells "Monday" 1 [⟨"-", 1, none⟩] =
        parse_row_cells "Monday" (1 + 1) [] :=
  ⟨(timetable_colspan_periods "Monday" [] ⟨"G1 19CS411", 2, some ("19CS411", "OS LAB")⟩
      1 "19CS411" "OS LAB").1 (by decide) (by decide) rfl rfl,
   by
    have h := (timetable_colspan_periods "Monday" [] ⟨"-", 1, none⟩ 1 "" "").2
      (Or.inl rfl)
    simpa using h⟩

/-- Claim C4: a login POST landing on the authenticated menu path succeeds
and retains the session cookies regardless of indicator counts; a
response whose URL still shows the portal path without the menu path
while the body has zero success indicators raises the login-failure
exception, so no session cookies are retained. -/
theorem login_url_classification (url body : String) (cookies : Nat) :
    (hasSub url.data "/studzone/Home/Menu".data = true →
      login_outcome url body cookies = Except.ok cookies)
    ∧ (hasSub url.data "/studzone/Home/Menu".data = false →
      hasSub url.data "/studzone".data = true →
      count_hits (toLowerL body.data) success_indicators = 0 →
      login_outcome url body cookies
        = Except.error "Login failed. Check your credentials.") := by
  constructor
  · intro h
    simp only [login_outcome, h, if_true]
  · intro hmenu hportal hsucc
    simp only [login_outcome, hmenu, Bool.false_eq_true, if_false, hsucc]
    by_cases hcond :
        ((hasSub url.data "/studzone".data
            && !hasSub url.data "/Home/Menu".data)
          || decide (0 < count_hits (toLowerL body.data) failure_indicators)) = true
    · rw [if_pos hcond]
    · rw [if_neg (by exact fun hx => hcond hx)]
      have hfail : count_hits (toLowerL body.data) failure_indicators = 0 := by
        rcases Nat.eq_zero_or_pos (count_hits (toLowerL body.data) failure_indicators)
          with h0 | h0
        · exact h0
        · exact absurd (by simp [hportal, h0] : _ = true) hcond
      rw [hfail]
      simp

/-- Witness for C4: landing on `/studzone/Home/Menu` succeeds and keeps
the cookies even though the body is full of failure indicators; landing
back on `/studzone` with an empty body (zero success indicators)
raises. -/
theorem login_url_classification_witness :
    login_outcome "https://x/studzone/Home/Menu" "invalid password error" 7
        = Except.ok 7
    ∧ login_outcome "https://x/studzone" "" 7
        = Except.error "Login failed. Check your credentials." :=
  ⟨(login_url_classification "https://x/studzone/Home/Menu"
      "invalid password error" 7).1 (by decide),
   (login_url_classification "https://x/studzone" "" 7).2
      (by decide) (by decide) (by decide)⟩

lemma minStep_le_left (a x : TimeTableEntry) :
    hmLe (minStep a x).start_time a.start_time = true := by
  rw [minStep]
  by_cases h : hmLt x.start_time a.start_time = true
  · rw [if_pos h]
    simp only [hmLt, decide_eq_true_eq] at h
    simp only [hmLe, decide_eq_true_eq]
    omega
  · rw [if_neg h]
    exact hmLe_refl _

lemma minStep_le_right (a x : TimeTableEntry) :
    hmLe (minStep a x).start_time x.start_time = true := by
  rw [minStep]
  by_cases h : hmLt x.start_time a.start_time = true
  · rw [if_pos h]
    exact hmLe_refl _
  · rw [if_neg h]
    simp only [hmLt, decide_eq_true_eq] at h
    simp only [hmLe, decide_eq_true_eq]
    omega

lemma foldl_minStep_mem :
    ∀ (l : List TimeTableEntry) (a : TimeTableEntry),
      l.foldl minStep a = a ∨ l.foldl minStep a ∈ l := by
  intro l
  induction l with
  | nil => intro a; left; rfl
  | cons x xs ih =>
    intro a
    simp only [List.foldl_cons]
    rcases ih (minStep a x) with h | h
    · rw [h, minStep]
      by_cases hc : hmLt x.start_time a.start_time = true
      · rw [if_pos hc]; right; exact List.mem_cons_self _ _
      · rw [if_neg hc]; left; rfl
    · right; exact List.mem_cons_of_mem _ h

lemma foldl_minStep_le_init :
    ∀ (l : List TimeTableEntry) (a : TimeTableEntry),
      hmLe (l.foldl minStep a).start_time a.start_time = true := by
  intro l
  induction l with
  | nil => intro a; exact hmLe_refl _
  | cons x xs ih =>
    intro a
    simp only [List.foldl_cons]
    exact hmLe_trans (ih (minStep a x)) (minStep_le_left a x)

lemma foldl_minStep_le_mem :
    ∀ (l : List TimeTableEntry) (a : TimeTableEntry),
      ∀ x ∈ l, hmLe (l.foldl minStep a).start_time x.start_time = true := by
  intro l
  induction l with
  | nil => intro a x hx; simp at hx
  | cons y ys ih =>
    intro a x hx
    simp only [List.foldl_cons]
    rcases List.mem_cons.mp hx with h | h
    · rw [h]
      exact hmLe_trans (foldl_minStep_le_init ys (minStep a y)) (minStep_le_right a y)
    · exact ih (minStep a y) x h

lemma minByStart_spec {l : List TimeTableEntry} {e : TimeTableEntry}
    (h : minByStart l = some e) :
    e ∈ l ∧ ∀ x ∈ l, hmLe e.start_time x.start_time = true := by
  cases l with
  | nil => simp [minByStart] at h
  | cons a rest =>
    simp only [minByStart, Option.some.injEq] at h
    constructor
    · rcases foldl_minStep_mem rest a with h1 | h1
      · rw [← h, h1]; exact List.mem_cons_self _ _
      · rw [← h]; exact List.mem_cons_of_mem _ h1
    · intro x hx
      rcases List.mem_cons.mp hx with h1 | h1
      · rw [← h, h1]; exact foldl_minStep_le_init rest a
      · rw [← h]; exact foldl_minStep_le_mem rest a x h1

lemma minByStart_eq_none {l : List TimeTableEntry} :
    minByStart l = none ↔ l = [] := by
  cases l <;> simp [minByStart]

lemma sortByStart_pairwise (l : List TimeTableEntry) :
    (sortByStart l).Pairwise (fun a b => startLe a b = true) :=
  List.sorted_mergeSort startLe_trans startLe_total l

lemma mem_sortByStart {x : TimeTableEntry} {l : List TimeTableEntry} :
    x ∈ sortByStart l ↔ x ∈ l :=
  List.mem_mergeSort

lemma find?_sorted_min {p : TimeTableEntry → Bool} :
    ∀ {l : List TimeTableEntry},
      l.Pairwise (fun a b => startLe a b = true) →
      ∀ {e}, l.find? p = some e →
      ∀ x ∈ l, p x = true → hmLe e.start_time x.start_time = true := by
  intro l
  induction l with
  | nil => intro _ e h; simp at h
  | cons a rest ih =>
    intro hpair e hfind x hx hpx
    rw [List.pairwise_cons] at hpair
    obtain ⟨ha, hrest⟩ := hpair
    by_cases hpa : p a = true
    · rw [List.find?_cons_of_pos _ hpa, Option.some.injEq] at hfind
      rcases List.mem_cons.mp hx with h1 | h1
      · rw [← hfind, h1]; exact hmLe_refl _
      · rw [← hfind]; exact ha x h1
    · rw [List.find?_cons_of_neg _ (by simp [hpa])] at hfind
      rcases List.mem_cons.mp hx with h1 | h1
      · rw [h1] at hpx; exact absurd hpx hpa
      · exact ih hrest hfind x h1 hpx

lemma mem_find_entries {x : TimeTableEntry} {tt : List TimeTableEntry} {d : String} :
    x ∈ find_entries_by_day tt d ↔ x ∈ tt ∧ lowerEq x.day d = true := by
  rw [find_entries_by_day]
  exact List.mem_filter

/-- Claim C6: `get_next_class` selects, in order: the earliest of today's
classes whose start qualifies against the current instant (strictly
after now, or at/after the break's end when now is inside a break);
otherwise tomorrow's earliest class by weekday; otherwise the earliest
Monday class; otherwise it reports no upcoming class. -/
theorem next_class_search_order (tt : List TimeTableEntry) (w : Nat) (now : HM) :
    ((∃ e ∈ tt, qualifies_today w now e = true) →
      ∃ e, get_next_class tt w now = some e ∧ e ∈ tt
        ∧ qualifies_today w now e = true
        ∧ ∀ x ∈ tt, qualifies_today w now x = true →
            hmLe e.start_time x.start_time = true)
    ∧ ((∀ e ∈ tt, qualifies_today w now e = false) →
      (∃ e ∈ tt, lowerEq e.day (dayName ((w + 1) % 7)) = true) →
      ∃ e, get_next_class tt w now = some e ∧ e ∈ tt
        ∧ lowerEq e.day (dayName ((w + 1) % 7)) = true
        ∧ ∀ x ∈ tt, lowerEq x.day (dayName ((w + 1) % 7)) = true →
            hmLe e.start_time x.start_time = true)
    ∧ ((∀ e ∈ tt, qualifies_today w now e = false) →
      (∀ e ∈ tt, lowerEq e.day (dayName ((w + 1) % 7)) = false) →
      (∃ e ∈ tt, lowerEq e.day "Monday" = true) →
      ∃ e, get_next_class tt w now = some e ∧ e ∈ tt
        ∧ lowerEq e.day "Monday" = true
        ∧ ∀ x ∈ tt, lowerEq x.day "Monday" = true →
            hmLe e.start_time x.start_time = true)
    ∧ ((∀ e ∈ tt, qualifies_today w now e = false) →
      (∀ e ∈ tt, lowerEq e.day (dayName ((w + 1) % 7)) = false) →
      (∀ e ∈ tt, lowerEq e.day "Monday" = false) →
      get_next_class tt w now = none) := by
  have hsortmem : ∀ x : TimeTableEntry,
      x ∈ sortByStart (find_entries_by_day tt (dayName w)) ↔
        x ∈ tt ∧ lowerEq x.day (dayName w) = true := by
    intro x
    rw [mem_sortByStart, mem_find_entries]
  have hfind_none : (∀ e ∈ tt, qualifies_today w now e = false) →
      (sortByStart (find_entries_by_day tt (dayName w))).find? (nextTimeOk now)
        = none := by
    intro hnone
    rw [List.find?_eq_none]
    intro x hxs hpx
    obtain ⟨hxtt, hxday⟩ := (hsortmem x).mp hxs
    have hq := hnone x hxtt
    rw [qualifies_today, hxday, hpx] at hq
    simp at hq
  have htom_nil : (∀ e ∈ tt, lowerEq e.day (dayName ((w + 1) % 7)) = false) →
      find_entries_by_day tt (dayName ((w + 1) % 7)) = [] := by
    intro hno
    rw [find_entries_by_day, List.filter_eq_nil_iff]
    intro a ha
    simp [lowerEq] at hno ⊢
    exact hno a ha
  refine ⟨?_, ?_, ?_, ?_⟩
  · rintro ⟨e0, he0, hq0⟩
    rw [qualifies_today, Bool.and_eq_true] at hq0
    have hne : (sortByStart (find_entries_by_day tt (dayName w))).find?
        (nextTimeOk now) ≠ none := by
      intro hnone
      exact absurd hq0.2 (List.find?_eq_none.mp hnone e0 ((hsortmem e0).mpr ⟨he0, hq0.1⟩))
    obtain ⟨e, hfind⟩ := Option.ne_none_iff_exists'.mp hne
    obtain ⟨hett, heday⟩ := (hsortmem e).mp (List.mem_of_find?_eq_some hfind)
    refine ⟨e, ?_, hett, ?_, ?_⟩
    · simp only [get_next_class, hfind]
    · rw [qualifies_today, heday, List.find?_some hfind]
      rfl
    · intro x hx hqx
      rw [qualifies_today, Bool.and_eq_true] at hqx
      exact find?_sorted_min (sortByStart_pairwise _) hfind x
        ((hsortmem x).mpr ⟨hx, hqx.1⟩) hqx.2
  · rintro hnone ⟨e0, he0, hd0⟩
    have hfind := hfind_none hnone
    have hne : minByStart (find_entries_by_day tt (dayName ((w + 1) % 7)))
        ≠ none := by
      intro h0
      have hnil := minByStart_eq_none.mp h0
      exact absurd (mem_find_entries.mpr ⟨he0, hd0⟩) (by rw [hnil]; simp)
    obtain ⟨e, hmin⟩ := Option.ne_none_iff_exists'.mp hne
    obtain ⟨hmem, hle⟩ := minByStart_spec hmin
    obtain ⟨hett, heday⟩ := mem_find_entries.mp hmem
    refine ⟨e, ?_, hett, heday, ?_⟩
    · simp only [get_next_class, hfind, hmin]
    · intro x hx hdx
      exact hle x (mem_find_entries.mpr ⟨hx, hdx⟩)
  · rintro hnone hnotom ⟨e0, he0, hd0⟩
    have hfind := hfind_none hnone
    have hminnone : minByStart (find_entries_by_day tt (dayName ((w + 1) % 7)))
        = none := minByStart_eq_none.mpr (htom_nil hnotom)
    have hne : minByStart (find_entries_by_day tt "Monday") ≠ none := by
      intro h0
      have hnil := minByStart_eq_none.mp h0
      exact absurd (mem_find_entries.mpr ⟨he0, hd0⟩) (by rw [hnil]; simp)
    obtain ⟨e, hmin⟩ := Option.ne_none_iff_exists'.mp hne
    obtain ⟨hmem, hle⟩ := minByStart_spec hmin
    obtain ⟨hett, heday⟩ := mem_find_entries.mp hmem
    refine ⟨e, ?_, hett, heday, ?_⟩
    · simp only [get_next_class, hfind, hminnone, hmin]
    · intro x hx hdx
      exact hle x (mem_find_entries.mpr ⟨hx, hdx⟩)
  · intro hnone hnotom hnomon
    have hfind := hfind_none hnone
    have hminnone : minByStart (find_entries_by_day tt (dayName ((w + 1) % 7)))
        = none := minByStart_eq_none.mpr (htom_nil hnotom)
    have hmonnil : find_entries_by_day tt "Monday" = [] := by
      rw [find_entries_by_day, List.filter_eq_nil_iff]
      intro a ha
      simp [lowerEq] at hnomon ⊢
      exact hnomon a ha
    have hmonnone : minByStart (find_entries_by_day tt "Monday") = none :=
      minByStart_eq_none.mpr hmonnil
    simp only [get_next_class, hfind, hminnone, hmonnone]

/-- Witness for C6: at 08:00 on a Monday the sole 08:30 Monday class is
selected as today's next class, and an empty timetable on a Saturday
yields no upcoming class. -/
theorem next_class_search_order_witness :
    (∃ e, get_next_class
        [TimeTableEntry.mk "Monday" 1 ⟨8, 30⟩ ⟨9, 20⟩ "19CS401" "OS" "" ""]
        0 ⟨8, 0⟩ = some e
      ∧ e ∈ [TimeTableEntry.mk "Monday" 1 ⟨8, 30⟩ ⟨9, 20⟩ "19CS401" "OS" "" ""]
      ∧ qualifies_today 0 ⟨8, 0⟩ e = true
      ∧ ∀ x ∈ [TimeTableEntry.mk "Monday" 1 ⟨8, 30⟩ ⟨9, 20⟩ "19CS401" "OS" "" ""],
          qualifies_today 0 ⟨8, 0⟩ x = true →
            hmLe e.start_time x.start_time = true)
    ∧ get_next_class [] 5 ⟨8, 0⟩ = none :=
  ⟨(next_class_search_order
      [TimeTableEntry.mk "Monday" 1 ⟨8, 30⟩ ⟨9, 20⟩ "19CS401" "OS" "" ""]
      0 ⟨8, 0⟩).1
      ⟨TimeTableEntry.mk "Monday" 1 ⟨8, 30⟩ ⟨9, 20⟩ "19CS401" "OS" "" "",
        by simp, by decide⟩,
   (next_class_search_order [] 5 ⟨8, 0⟩).2.2.2 (by simp) (by simp) (by simp)⟩
